import Mathlib

/-!
Verification of the event-transport and handle-management core of the
repository (file `src/app/app.c`, plus the swapchain cache of
`src/graphics/wgpu_surface_win32.c`).

The development shallowly embeds the C code: machine integers become `Nat`
with explicit `% 2 ^ w` where overflow matters, byte buffers become `List Nat`,
fallible lookups return `Option`.  The byte ring buffer (`oc_ringbuffer_*`) and
the in-memory layout of `oc_event` are declared and used by `app.c` but their
definitions are not among the provided sources; those parts are modelled from
the specification, as indicated on each definition.
-/

namespace Orca

/-- Modelled from the spec: the byte ring buffer of section 4.1 (the
`oc_ringbuffer` implementation is not among the provided sources).  The state
is kept logically: `cap` is the capacity, `committed` the bytes published to
the reader (oldest first), `staged` the bytes reserved since the last commit
or rewind.  The physical circular indexing (cursors modulo capacity) is a
representation detail that this logical state abstracts. -/
structure oc_ringbuffer where
  cap : Nat
  committed : List Nat
  staged : List Nat
deriving DecidableEq, Repr

/-- Modelled from the spec: a fresh ring buffer of capacity `cap`. -/
def oc_ringbuffer_init (cap : Nat) : oc_ringbuffer :=
  { cap := cap, committed := [], staged := [] }

/-- Modelled from the spec: bytes available to read, `W - R`. -/
def oc_ringbuffer_read_available (q : oc_ringbuffer) : Nat :=
  q.committed.length

/-- Modelled from the spec: bytes that may still be written without
overwriting unread data; the staging cursor counts, so reserved-but-uncommitted
bytes already consume space. -/
def oc_ringbuffer_write_available (q : oc_ringbuffer) : Nat :=
  q.cap - (q.committed.length + q.staged.length)

/-- Modelled from the spec: copy bytes at the staging cursor (not yet visible
to the reader). -/
def oc_ringbuffer_reserve (q : oc_ringbuffer) (bytes : List Nat) : oc_ringbuffer :=
  { q with staged := q.staged ++ bytes }

/-- Modelled from the spec: publish all reserved bytes to the reader. -/
def oc_ringbuffer_commit (q : oc_ringbuffer) : oc_ringbuffer :=
  { q with committed := q.committed ++ q.staged, staged := [] }

/-- Modelled from the spec: discard all bytes reserved since the last commit
or rewind. -/
def oc_ringbuffer_rewind (q : oc_ringbuffer) : oc_ringbuffer :=
  { q with staged := [] }

/-- Modelled from the spec: read up to `n` bytes from the read cursor and
advance it; returns the bytes actually read (the C function returns their
count). -/
def oc_ringbuffer_read (q : oc_ringbuffer) (n : Nat) : List Nat × oc_ringbuffer :=
  (q.committed.take n, { q with committed := q.committed.drop n })

/-- Little-endian byte image of a machine integer, `m` bytes wide.  This is
the memcpy of a `u64` field done by `oc_ringbuffer_reserve(queue, sizeof(u64), ...)`
in `oc_queue_event`. -/
def encBytes : Nat → Nat → List Nat
  | 0, _ => []
  | m + 1, n => n % 256 :: encBytes m (n / 256)

/-- Reassemble a little-endian byte image into the integer it denotes; the
memcpy back out of the queue done by `oc_ringbuffer_read` in `oc_next_event`. -/
def decBytes (bs : List Nat) : Nat :=
  bs.foldr (fun b acc => b + 256 * acc) 0

/-- Modelled from the spec: the tag value `OC_EVENT_PATHDROP` (the enum lives
in a header that is not among the provided sources; only its distinctness
matters). -/
def OC_EVENT_PATHDROP : Nat := 10

/-- Modelled from the spec: the `oc_str8_list` carried by a path-drop event:
the strings (each a byte list) and the element count field carried in the
fixed header. -/
structure oc_str8_list where
  strings : List (List Nat)
  eltCount : Nat
deriving DecidableEq, Repr

/-- Modelled from the spec: the fixed-size event record.  `type` is the kind
tag, `fields` stands for the remaining kind-specific fixed fields (key code,
mouse position, ...), lumped into one machine word since the claims only
require that they round-trip; `paths` is the path list of a path-drop
event. -/
structure oc_event where
  type : Nat
  fields : Nat
  paths : oc_str8_list
deriving DecidableEq, Repr

/-- Modelled from the spec: the byte size of the fixed `oc_event` header as
serialized (three `u64` images: tag, fixed fields, element count). -/
def sizeof_oc_event : Nat := 24

/-- The raw byte image of the fixed header, as reserved by
`oc_ringbuffer_reserve(queue, sizeof(oc_event), (u8*)event)`. -/
def encodeHeader (e : oc_event) : List Nat :=
  encBytes 8 e.type ++ encBytes 8 e.fields ++ encBytes 8 e.paths.eltCount

/-- Rebuild an `oc_event` from the header bytes read back out of the queue.
The in-memory string pointers of a serialized list are meaningless after
deserialization, so the string list starts empty (for a path-drop event the
consumer resets it and repopulates it from the payload anyway). -/
def decodeHeader (bs : List Nat) : oc_event :=
  { type := decBytes (bs.take 8)
  , fields := decBytes ((bs.drop 8).take 8)
  , paths := { strings := [], eltCount := decBytes ((bs.drop 16).take 8) } }

/-- The path-serialization loop of `oc_queue_event` (`app.c`, lines 111-127):
for each path, if fewer than `sizeof(u64) + path->len` bytes can be written,
log, set the error flag and break; otherwise reserve the length field and the
string bytes.  Returns the buffer and the error flag. -/
def reservePaths : oc_ringbuffer → List (List Nat) → oc_ringbuffer × Bool
  | q, [] => (q, false)
  | q, s :: rest =>
    if oc_ringbuffer_write_available q < 8 + s.length then
      (q, true)
    else
      reservePaths (oc_ringbuffer_reserve (oc_ringbuffer_reserve q (encBytes 8 s.length)) s) rest

/-- `oc_queue_event` (`app.c`, lines 98-138), returning the new queue state
and whether the event was committed: if fewer than `sizeof(oc_event)` bytes
are writable the event is dropped; otherwise the header is reserved, a
path-drop payload is serialized by `reservePaths`, and the transaction is
rewound on error or committed on success. -/
def oc_queue_event_c (q : oc_ringbuffer) (e : oc_event) : oc_ringbuffer × Bool :=
  if oc_ringbuffer_write_available q < sizeof_oc_event then
    (q, false)
  else
    let q1 := oc_ringbuffer_reserve q (encodeHeader e)
    if e.type = OC_EVENT_PATHDROP then
      match reservePaths q1 e.paths.strings with
      | (q2, true) => (oc_ringbuffer_rewind q2, false)
      | (q2, false) => (oc_ringbuffer_commit q2, true)
    else
      (oc_ringbuffer_commit q1, true)

/-- `oc_queue_event`, state part (the C function returns void). -/
def oc_queue_event (q : oc_ringbuffer) (e : oc_event) : oc_ringbuffer :=
  (oc_queue_event_c q e).1

/-- The payload-deserialization loop of `oc_next_event` (`app.c`, lines
157-177), with the count argument driving the recursion: on a shortfall for
the length field or for the string bytes, log and break (the flag records
that a malformed-payload error was logged); otherwise read the length, read
that many bytes, append the string.  Returns the collected strings, the queue
and the flag. -/
def readPaths : List (List Nat) → oc_ringbuffer → Nat → List (List Nat) × oc_ringbuffer × Bool
  | acc, q, 0 => (acc, q, false)
  | acc, q, i + 1 =>
    if oc_ringbuffer_read_available q < 8 then
      (acc, q, true)
    else
      let r1 := oc_ringbuffer_read q 8
      let len := decBytes r1.1
      if oc_ringbuffer_read_available r1.2 < len then
        (acc, r1.2, true)
      else
        let r2 := oc_ringbuffer_read r1.2 len
        readPaths (acc ++ [r2.1]) r2.2 i

/-- `oc_next_event` (`app.c`, lines 140-181), with the queue state passed
explicitly and the malformed-payload flag returned alongside: absence
indicator if fewer than `sizeof(oc_event)` bytes are readable; otherwise read
and decode the header; for a path-drop event, reset the path list and rebuild
it with `readPaths`, reading at most the declared element count. -/
def oc_next_event_c (q : oc_ringbuffer) : Option oc_event × oc_ringbuffer × Bool :=
  if sizeof_oc_event ≤ oc_ringbuffer_read_available q then
    let r := oc_ringbuffer_read q sizeof_oc_event
    let event := decodeHeader r.1
    if event.type = OC_EVENT_PATHDROP then
      let pathCount := event.paths.eltCount
      let rp := readPaths [] r.2 pathCount
      (some { event with paths := { strings := rp.1, eltCount := rp.1.length } }, rp.2.1, rp.2.2)
    else
      (some event, r.2, false)
  else
    (none, q, false)

/-- `oc_next_event`, without the logging flag. -/
def oc_next_event (q : oc_ringbuffer) : Option oc_event × oc_ringbuffer :=
  ((oc_next_event_c q).1, (oc_next_event_c q).2.1)

/-- Number of bytes a successful `oc_queue_event` appends to the queue: the
fixed header, plus a `u64` length field and the string bytes per path for a
path-drop event. -/
def serializedSize (e : oc_event) : Nat :=
  sizeof_oc_event +
    (if e.type = OC_EVENT_PATHDROP then
       (e.paths.strings.map (fun s => 8 + s.length)).sum
     else 0)

/-- The full byte image a successful `oc_queue_event` commits for `e`. -/
def encodeEvent (e : oc_event) : List Nat :=
  encodeHeader e ++
    (if e.type = OC_EVENT_PATHDROP then
       (e.paths.strings.map (fun s => encBytes 8 s.length ++ s)).flatten
     else [])

/-- Well-formed events, as the windowing backend must produce them (spec,
section 6): all header fields fit in a `u64`; a path-drop event carries an
accurate element count and each string length fits in a `u64`; a non
path-drop event carries no strings (its union space holds the other kinds). -/
def wfEvent (e : oc_event) : Prop :=
  e.type < 2 ^ 64 ∧ e.fields < 2 ^ 64 ∧ e.paths.eltCount < 2 ^ 64 ∧
    (e.type = OC_EVENT_PATHDROP →
      e.paths.eltCount = e.paths.strings.length ∧
        ∀ s ∈ e.paths.strings, s.length < 2 ^ 64) ∧
    (e.type ≠ OC_EVENT_PATHDROP → e.paths.strings = [])

instance (e : oc_event) : Decidable (wfEvent e) := by
  unfold wfEvent; infer_instance

/-- Push a whole sequence of events, left to right. -/
def pushAll (q : oc_ringbuffer) (es : List oc_event) : oc_ringbuffer :=
  es.foldl oc_queue_event q

lemma readPaths_committed_le (n : Nat) (acc : List (List Nat)) (q : oc_ringbuffer) :
    (readPaths acc q n).2.1.committed.length ≤ q.committed.length := by
  induction n generalizing acc q with
  | zero => simp [readPaths]
  | succ n ih =>
    unfold readPaths
    dsimp only
    split
    · simp
    · split
      · simp [oc_ringbuffer_read]
      · refine le_trans (ih _ _) ?_
        simp [oc_ringbuffer_read]

lemma oc_next_event_committed_lt (q : oc_ringbuffer) (e : oc_event)
    (h : (oc_next_event_c q).1 = some e) :
    (oc_next_event_c q).2.1.committed.length < q.committed.length := by
  unfold oc_next_event_c at *
  by_cases hg : sizeof_oc_event ≤ oc_ringbuffer_read_available q
  · simp only [hg, if_true] at h ⊢
    have hlen : (oc_ringbuffer_read q sizeof_oc_event).2.committed.length
        = q.committed.length - sizeof_oc_event := by
      simp [oc_ringbuffer_read]
    have hq : sizeof_oc_event ≤ q.committed.length := hg
    split
    · dsimp only
      refine lt_of_le_of_lt (readPaths_committed_le _ _ _) ?_
      rw [hlen]
      simp [sizeof_oc_event] at hq ⊢
      omega
    · dsimp only
      rw [hlen]
      simp [sizeof_oc_event] at hq ⊢
      omega
  · simp [hg] at h

/-- Drain the queue: call `oc_next_event` repeatedly until it returns the
absence indicator, collecting the events in order. -/
def drainEvents (q : oc_ringbuffer) : List oc_event × oc_ringbuffer :=
  match h : oc_next_event_c q with
  | (none, q1, _) => ([], q1)
  | (some e, q1, _) =>
    let rest := drainEvents q1
    (e :: rest.1, rest.2)
termination_by q.committed.length
decreasing_by
  have := oc_next_event_committed_lt q e (by rw [h])
  rw [h] at this
  exact this

/-- The window registry slice of the global `oc_app` state (`app.c`):
`windowPool` holds the generation counter of each slot (the resource payload
is irrelevant to the claims, and `OC_APP_MAX_WINDOWS` is the pool length);
`windowFreeList` holds the free slot indices, front of the list first (the C
code uses an intrusive doubly linked list: push and pop act on the front,
append acts on the back). -/
structure oc_app where
  windowPool : List Nat
  windowFreeList : List Nat
deriving DecidableEq, Repr

/-- `oc_init_window_handles` (`app.c`, lines 18-26): every generation is set
to 1 and the slots are appended to the free list in index order. -/
def oc_init_window_handles (n : Nat) : oc_app :=
  { windowPool := List.replicate n 1, windowFreeList := List.range n }

/-- `oc_window_null_handle` (`app.c`, lines 33-36). -/
def oc_window_null_handle : Nat := 0

/-- `oc_window_handle_is_null` (`app.c`, lines 28-31). -/
def oc_window_handle_is_null (h : Nat) : Bool := h = 0

/-- `oc_window_alloc` (`app.c`, lines 38-41): pop the free-list head; the
absence indicator reports an exhausted pool.  Slots are denoted by their
index (the C pointer is base plus index). -/
def oc_window_alloc (p : oc_app) : Option Nat × oc_app :=
  match p.windowFreeList with
  | [] => (none, p)
  | i :: rest => (some i, { p with windowFreeList := rest })

/-- `oc_window_ptr_from_handle` (`app.c`, lines 43-60): decode the slot index
from the high 32 bits and the generation from the low 32 bits; null for an
out-of-range index or a generation mismatch, otherwise the slot. -/
def oc_window_ptr_from_handle (p : oc_app) (h : Nat) : Option Nat :=
  let index := h / 2 ^ 32
  let generation := h % 2 ^ 32
  if p.windowPool.length ≤ index then
    none
  else if p.windowPool.getD index 0 ≠ generation then
    none
  else
    some index

/-- `oc_window_handle_from_ptr` (`app.c`, lines 62-71): pack the slot index
in the high 32 bits and its current generation in the low 32 bits of a
`u64`. -/
def oc_window_handle_from_ptr (p : oc_app) (i : Nat) : Nat :=
  (i * 2 ^ 32 + p.windowPool.getD i 0) % 2 ^ 64

/-- `oc_window_recycle_ptr` (`app.c`, lines 73-77): increment the generation
of the slot (the field is `u32`, as in the analogous view pool of
`osx_app.h`, so the increment wraps modulo `2 ^ 32`) and push the slot on the
free-list front. -/
def oc_window_recycle_ptr (p : oc_app) (i : Nat) : oc_app :=
  { p with
    windowPool := p.windowPool.set i ((p.windowPool.getD i 0 + 1) % 2 ^ 32)
    windowFreeList := i :: p.windowFreeList }

/-- Allocate `k` times in sequence, collecting the results. -/
def allocAll : oc_app → Nat → List (Option Nat) × oc_app
  | p, 0 => ([], p)
  | p, k + 1 =>
    let r := oc_window_alloc p
    let rest := allocAll r.2 k
    (r.1 :: rest.1, rest.2)

/-- An operation applied to the window registry by its owning subsystem. -/
inductive PoolOp where
  | alloc : PoolOp
  | recycle : Nat → PoolOp
deriving DecidableEq, Repr

/-- Run one registry operation (the result of an allocation is discarded, only
the state evolution matters here). -/
def applyOp (p : oc_app) : PoolOp → oc_app
  | PoolOp.alloc => (oc_window_alloc p).2
  | PoolOp.recycle i => oc_window_recycle_ptr p i

/-- Run a sequence of registry operations, left to right. -/
def applyOps (p : oc_app) (ops : List PoolOp) : oc_app :=
  ops.foldl applyOp p

/-- How many times `ops` recycles slot `i`. -/
def recycleCount (i : Nat) : List PoolOp → Nat
  | [] => 0
  | op :: ops => (if op = PoolOp.recycle i then 1 else 0) + recycleCount i ops

/-- `k` alloc-then-recycle cycles of slot 0, the reuse pattern the claims
quantify over. -/
def cycleOps : Nat → List PoolOp
  | 0 => []
  | k + 1 => PoolOp.alloc :: PoolOp.recycle 0 :: cycleOps k

/-- A WebGPU swapchain as created by `wgpuDeviceCreateSwapChain` for a device
and a pixel size (`wgpu_surface_win32.c`, lines 104-111); creation is modelled
as always succeeding. -/
structure WGPUSwapChain where
  device : Nat
  width : Int
  height : Int
deriving DecidableEq, Repr

/-- The swapchain cache of `oc_wgpu_surface` (`wgpu_surface_win32.c`, lines
13-22): the cached owning device (0 is the null device), the cached swapchain
(`none` is NULL) and the cached size. -/
structure oc_wgpu_surface where
  wgpuDevice : Nat
  wgpuSwapChain : Option WGPUSwapChain
  swapChainSize : Int × Int
deriving DecidableEq, Repr

/-- `oc_wgpu_surface_get_swapchain` (`wgpu_surface_win32.c`, lines 66-122),
restricted to the cache logic on an already-resolved WebGPU surface: `size`
is the requested size (surface size times contents scale, computed by the
caller-side lines 73-76; the claims treat it as the input).  If the device
changed, the cache is empty or the size differs, release the old swapchain,
release the old device reference when the device changed, create a new
swapchain when the device and both size components are nonzero, and update
the cached size; otherwise return the cached swapchain unchanged. -/
def oc_wgpu_surface_get_swapchain (s : oc_wgpu_surface) (device : Nat)
    (size : Int × Int) : Option WGPUSwapChain × oc_wgpu_surface :=
  if s.wgpuDevice ≠ device ∨ s.wgpuSwapChain = none ∨
      s.swapChainSize.1 ≠ size.1 ∨ s.swapChainSize.2 ≠ size.2 then
    let s1 := { s with wgpuSwapChain := none }
    let s2 :=
      if s1.wgpuDevice ≠ 0 ∧ s1.wgpuDevice ≠ device then
        { s1 with wgpuDevice := 0 }
      else s1
    let s3 :=
      if device ≠ 0 ∧ size.1 ≠ 0 ∧ size.2 ≠ 0 then
        { s2 with
          wgpuDevice := device
          wgpuSwapChain := some { device := device, width := size.1, height := size.2 } }
      else s2
    let s4 := { s3 with swapChainSize := size }
    (s4.wgpuSwapChain, s4)
  else
    (s.wgpuSwapChain, s)

lemma encBytes_length (m n : Nat) : (encBytes m n).length = m := by
  induction m generalizing n with
  | zero => rfl
  | succ m ih => simp [encBytes, ih]

lemma decBytes_cons (x : Nat) (xs : List Nat) :
    decBytes (x :: xs) = x + 256 * decBytes xs := rfl

lemma decBytes_encBytes (m n : Nat) : decBytes (encBytes m n) = n % 256 ^ m := by
  induction m generalizing n with
  | zero => simp [encBytes, decBytes, Nat.mod_one]
  | succ m ih =>
    rw [encBytes, decBytes_cons, ih, pow_succ, mul_comm (256 ^ m) 256]
    exact Nat.mod_mul.symm

lemma decBytes_encBytes_u64 (n : Nat) (h : n < 2 ^ 64) : decBytes (encBytes 8 n) = n := by
  have h256 : (256 : Nat) ^ 8 = 2 ^ 64 := by norm_num
  rw [decBytes_encBytes, h256, Nat.mod_eq_of_lt h]

lemma encodeHeader_length (e : oc_event) : (encodeHeader e).length = sizeof_oc_event := by
  simp [encodeHeader, encBytes_length, sizeof_oc_event]

lemma encodeEvent_length (e : oc_event) : (encodeEvent e).length = serializedSize e := by
  unfold encodeEvent serializedSize
  rw [List.length_append, encodeHeader_length]
  congr 1
  split
  · rw [List.length_flatten, List.map_map]
    congr 1
    apply List.map_congr_left
    intro s _
    simp [encBytes_length]
  · rfl

lemma decodeHeader_encodeHeader (e : oc_event)
    (h1 : e.type < 2 ^ 64) (h2 : e.fields < 2 ^ 64) (h3 : e.paths.eltCount < 2 ^ 64) :
    decodeHeader (encodeHeader e) =
      { type := e.type, fields := e.fields
      , paths := { strings := [], eltCount := e.paths.eltCount } } := by
  have l1 : (encBytes 8 e.type).length = 8 := encBytes_length 8 _
  have l2 : (encBytes 8 e.fields).length = 8 := encBytes_length 8 _
  have l3 : (encBytes 8 e.paths.eltCount).length = 8 := encBytes_length 8 _
  unfold decodeHeader encodeHeader
  rw [List.append_assoc]
  have e3 : (encBytes 8 e.type ++ (encBytes 8 e.fields ++ encBytes 8 e.paths.eltCount)).drop 16
      = encBytes 8 e.paths.eltCount := by
    rw [show (16 : Nat) = 8 + 8 from rfl, ← List.drop_drop]
    rw [List.drop_left' l1, List.drop_left' l2]
  rw [List.take_left' l1, List.drop_left' l1, List.take_left' l2, e3]
  rw [List.take_of_length_le (le_of_eq l3)]
  rw [decBytes_encBytes_u64 _ h1, decBytes_encBytes_u64 _ h2, decBytes_encBytes_u64 _ h3]

lemma readPaths_encoded (ss : List (List Nat)) (rest : List Nat) :
    ∀ (acc : List (List Nat)) (q : oc_ringbuffer),
      (∀ s ∈ ss, s.length < 2 ^ 64) →
      q.committed = (ss.map (fun s => encBytes 8 s.length ++ s)).flatten ++ rest →
      readPaths acc q ss.length = (acc ++ ss, { q with committed := rest }, false) := by
  induction ss with
  | nil =>
    intro acc q _ hc
    simp only [List.map_nil, List.flatten_nil, List.nil_append] at hc
    simp [readPaths, ← hc]
  | cons s ss ih =>
    intro acc q hb hc
    have lenc : (encBytes 8 s.length).length = 8 := encBytes_length 8 _
    have hc2 : q.committed
        = encBytes 8 s.length ++ (s ++ ((ss.map (fun t => encBytes 8 t.length ++ t)).flatten ++ rest)) := by
      rw [hc]
      simp [List.append_assoc]
    have hge : ¬ oc_ringbuffer_read_available q < 8 := by
      rw [oc_ringbuffer_read_available, hc2]
      simp [lenc]
    rw [List.length_cons, readPaths, if_neg hge]
    simp only [oc_ringbuffer_read]
    rw [hc2, List.take_left' lenc, List.drop_left' lenc]
    rw [decBytes_encBytes_u64 _ (hb s (List.mem_cons_self s ss))]
    have hge2 : ¬ ((s ++ ((ss.map (fun t => encBytes 8 t.length ++ t)).flatten ++ rest)).length < s.length) := by
      simp
    rw [if_neg (by simpa [oc_ringbuffer_read_available] using hge2)]
    rw [List.take_left, List.drop_left]
    rw [ih (acc ++ [s]) _ (fun t ht => hb t (List.mem_cons_of_mem s ht)) rfl]
    simp

lemma oc_next_event_c_encoded (e : oc_event) (rest : List Nat) (q : oc_ringbuffer)
    (hwf : wfEvent e) (hc : q.committed = encodeEvent e ++ rest) :
    oc_next_event_c q = (some e, { q with committed := rest }, false) := by
  obtain ⟨h1, h2, h3, h4, h5⟩ := hwf
  have hhdr : (encodeHeader e).length = sizeof_oc_event := encodeHeader_length e
  have hc2 : q.committed = encodeHeader e ++
      ((if e.type = OC_EVENT_PATHDROP then
          (e.paths.strings.map (fun s => encBytes 8 s.length ++ s)).flatten
        else []) ++ rest) := by
    rw [hc, encodeEvent, List.append_assoc]
  have hge : sizeof_oc_event ≤ oc_ringbuffer_read_available q := by
    rw [oc_ringbuffer_read_available, hc2]
    simp [hhdr]
  rw [oc_next_event_c, if_pos hge]
  simp only [oc_ringbuffer_read]
  rw [hc2, List.take_left' hhdr, List.drop_left' hhdr]
  rw [decodeHeader_encodeHeader e h1 h2 h3]
  by_cases ht : e.type = OC_EVENT_PATHDROP
  · obtain ⟨h4a, h4b⟩ := h4 ht
    simp only [ht, if_pos rfl, if_true]
    rw [h4a]
    rw [readPaths_encoded e.paths.strings rest [] _ h4b rfl]
    obtain ⟨t, f, ⟨ss0, n0⟩⟩ := e
    simp only at ht h4a ⊢
    subst ht
    subst h4a
    simp
  · rw [if_neg ht, if_neg ht]
    obtain ⟨t, f, ⟨ss0, n0⟩⟩ := e
    simp only at ht h5 ⊢
    rw [h5 ht]
    simp

lemma reservePaths_ok (ss : List (List Nat)) :
    ∀ q : oc_ringbuffer,
      (ss.map (fun s => 8 + s.length)).sum ≤ oc_ringbuffer_write_available q →
      reservePaths q ss =
        ({ q with staged := q.staged ++ (ss.map (fun s => encBytes 8 s.length ++ s)).flatten }, false) := by
  induction ss with
  | nil =>
    intro q _
    simp [reservePaths]
  | cons s ss ih =>
    intro q hroom
    simp only [List.map_cons, List.sum_cons] at hroom
    have hok : ¬ oc_ringbuffer_write_available q < 8 + s.length := by omega
    rw [reservePaths, if_neg hok]
    have hwa : oc_ringbuffer_write_available
        (oc_ringbuffer_reserve (oc_ringbuffer_reserve q (encBytes 8 s.length)) s)
        = oc_ringbuffer_write_available q - (8 + s.length) := by
      simp [oc_ringbuffer_reserve, oc_ringbuffer_write_available, encBytes_length]
      omega
    rw [ih _ (by rw [hwa]; omega)]
    simp [oc_ringbuffer_reserve, List.append_assoc]

lemma oc_queue_event_c_success (q : oc_ringbuffer) (e : oc_event)
    (hst : q.staged = []) (hwf : wfEvent e)
    (hroom : serializedSize e ≤ oc_ringbuffer_write_available q) :
    oc_queue_event_c q e
      = ({ q with committed := q.committed ++ encodeEvent e, staged := [] }, true) := by
  have h24 : sizeof_oc_event ≤ serializedSize e := by
    unfold serializedSize
    omega
  have hok : ¬ oc_ringbuffer_write_available q < sizeof_oc_event := by omega
  rw [oc_queue_event_c, if_neg hok]
  by_cases ht : e.type = OC_EVENT_PATHDROP
  · have hwa : oc_ringbuffer_write_available (oc_ringbuffer_reserve q (encodeHeader e))
        = oc_ringbuffer_write_available q - sizeof_oc_event := by
      simp [oc_ringbuffer_reserve, oc_ringbuffer_write_available, encodeHeader_length e, hst]
      simp [sizeof_oc_event, oc_ringbuffer_write_available, hst]
      omega
    have hsum : (e.paths.strings.map (fun s => 8 + s.length)).sum
        ≤ oc_ringbuffer_write_available (oc_ringbuffer_reserve q (encodeHeader e)) := by
      rw [hwa]
      unfold serializedSize at hroom
      rw [if_pos ht] at hroom
      omega
    simp only [ht, if_pos rfl, if_true]
    rw [reservePaths_ok _ _ hsum]
    simp [oc_ringbuffer_reserve, oc_ringbuffer_commit, hst, encodeEvent, ht]
  · rw [if_neg ht]
    simp [oc_ringbuffer_reserve, oc_ringbuffer_commit, hst, encodeEvent, ht]

lemma reservePaths_committed_cap (ss : List (List Nat)) :
    ∀ q : oc_ringbuffer,
      (reservePaths q ss).1.committed = q.committed ∧ (reservePaths q ss).1.cap = q.cap := by
  induction ss with
  | nil => intro q; simp [reservePaths]
  | cons s ss ih =>
    intro q
    rw [reservePaths]
    split
    · exact ⟨rfl, rfl⟩
    · exact ih _

lemma pushAll_encoded (es : List oc_event) :
    ∀ q : oc_ringbuffer, q.staged = [] →
      (∀ e ∈ es, wfEvent e) →
      q.committed.length + (es.map serializedSize).sum ≤ q.cap →
      pushAll q es = { q with committed := q.committed ++ (es.map encodeEvent).flatten, staged := [] } := by
  induction es with
  | nil =>
    intro q hst _ _
    simp only [pushAll, List.foldl_nil, List.map_nil, List.flatten_nil, List.append_nil]
    rw [← hst]
  | cons e es ih =>
    intro q hst hwf hroom
    simp only [List.map_cons, List.sum_cons] at hroom
    have hroom1 : serializedSize e ≤ oc_ringbuffer_write_available q := by
      rw [oc_ringbuffer_write_available, hst]
      simp
      omega
    have hpush : oc_queue_event q e = { q with committed := q.committed ++ encodeEvent e, staged := [] } := by
      rw [oc_queue_event, oc_queue_event_c_success q e hst (hwf e (List.mem_cons_self e es)) hroom1]
    rw [pushAll, List.foldl_cons, hpush]
    have hrec := ih { q with committed := q.committed ++ encodeEvent e, staged := [] } rfl
      (fun x hx => hwf x (List.mem_cons_of_mem e hx))
      (by
        simp only [List.length_append, encodeEvent_length]
        omega)
    rw [show (List.foldl oc_queue_event { q with committed := q.committed ++ encodeEvent e, staged := [] } es)
        = pushAll { q with committed := q.committed ++ encodeEvent e, staged := [] } es from rfl]
    rw [hrec]
    simp [List.append_assoc]

lemma drainEvents_none (q q1 : oc_ringbuffer) (b : Bool)
    (h : oc_next_event_c q = (none, q1, b)) : drainEvents q = ([], q1) := by
  rw [drainEvents]
  split
  · rename_i q2 b2 heq
    rw [h] at heq
    simp only [Prod.mk.injEq] at heq
    rw [heq.2.1]
  · rename_i e q2 b2 heq
    rw [h] at heq
    simp at heq

lemma drainEvents_some (q q1 : oc_ringbuffer) (b : Bool) (e : oc_event)
    (h : oc_next_event_c q = (some e, q1, b)) :
    drainEvents q = (e :: (drainEvents q1).1, (drainEvents q1).2) := by
  rw [drainEvents]
  split
  · rename_i q2 b2 heq
    rw [h] at heq
    simp at heq
  · rename_i e2 q2 b2 heq
    rw [h] at heq
    simp only [Prod.mk.injEq, Option.some.injEq] at heq
    rw [heq.1, heq.2.1]

lemma drainEvents_encoded (es : List oc_event) :
    ∀ q : oc_ringbuffer,
      (∀ e ∈ es, wfEvent e) →
      q.committed = (es.map encodeEvent).flatten →
      drainEvents q = (es, { q with committed := [] }) := by
  induction es with
  | nil =>
    intro q _ hc
    simp only [List.map_nil, List.flatten_nil] at hc
    have hnone : oc_next_event_c q = (none, q, false) := by
      rw [oc_next_event_c, if_neg]
      rw [oc_ringbuffer_read_available, hc]
      simp [sizeof_oc_event]
    rw [drainEvents_none q q false hnone]
    rw [show ({ q with committed := [] } : oc_ringbuffer) = q from by rw [← hc]]
  | cons e es ih =>
    intro q hwf hc
    have hpop : oc_next_event_c q
        = (some e, { q with committed := (es.map encodeEvent).flatten }, false) := by
      apply oc_next_event_c_encoded e _ q (hwf e (List.mem_cons_self e es))
      rw [hc]
      simp
    rw [drainEvents_some q _ false e hpop]
    rw [ih _ (fun x hx => hwf x (List.mem_cons_of_mem e hx)) rfl]

lemma readPaths_length_le (n : Nat) :
    ∀ (acc : List (List Nat)) (q : oc_ringbuffer),
      ((readPaths acc q n).1).length ≤ acc.length + n := by
  induction n with
  | zero => intro acc q; simp [readPaths]
  | succ n ih =>
    intro acc q
    unfold readPaths
    dsimp only
    split
    · simp
    · split
      · simp
      · refine le_trans (ih _ _) ?_
        simp
        omega

lemma readPaths_err_length_lt (n : Nat) :
    ∀ (acc : List (List Nat)) (q : oc_ringbuffer),
      (readPaths acc q n).2.2 = true →
      ((readPaths acc q n).1).length < acc.length + n := by
  induction n with
  | zero => intro acc q h; simp [readPaths] at h
  | succ n ih =>
    intro acc q
    unfold readPaths
    dsimp only
    split
    · intro _
      dsimp only
      omega
    · split
      · intro _
        dsimp only
        omega
      · intro h
        refine lt_of_lt_of_le (ih _ _ h) ?_
        simp only [List.length_append, List.length_cons, List.length_nil]
        omega

/-- Claim C1: pushing any sequence of well-formed events whose cumulative
serialized size (fixed header, plus a u64 length field and the bytes per path
for path-drop events) fits in the capacity, then popping with `oc_next_event`
until the absence indicator, returns exactly the pushed events, in push
order, with the kind tag and payload contents preserved. -/
theorem queue_fifo_roundtrip (cap : Nat) (es : List oc_event)
    (hwf : ∀ e ∈ es, wfEvent e)
    (hcap : (es.map serializedSize).sum ≤ cap) :
    (drainEvents (pushAll (oc_ringbuffer_init cap) es)).1 = es := by
  rw [pushAll_encoded es (oc_ringbuffer_init cap) rfl hwf
    (by simpa [oc_ringbuffer_init] using hcap)]
  rw [drainEvents_encoded es _ hwf (by simp [oc_ringbuffer_init])]

/-- Witness for C1: a path-drop event with one path followed by a plain event
round-trip through a queue of capacity 64. -/
theorem queue_fifo_roundtrip_witness :
    (drainEvents (pushAll (oc_ringbuffer_init 64)
      [ { type := OC_EVENT_PATHDROP, fields := 7
        , paths := { strings := [[1, 2]], eltCount := 1 } }
      , { type := 3, fields := 5, paths := { strings := [], eltCount := 0 } } ])).1
    = [ { type := OC_EVENT_PATHDROP, fields := 7
        , paths := { strings := [[1, 2]], eltCount := 1 } }
      , { type := 3, fields := 5, paths := { strings := [], eltCount := 0 } } ] :=
  queue_fifo_roundtrip 64 _ (by decide) (by decide)

/-- Claim C2: a failed `oc_queue_event` call (the event was not committed,
whether dropped up front for lack of header space or rolled back after a
partial path serialization) leaves the queue state identical, so
`read_available` and `write_available` are unchanged and no subsequent
`oc_next_event` can ever return the partially serialized event. -/
theorem queue_push_failure_no_residue (q : oc_ringbuffer) (e : oc_event)
    (hst : q.staged = [])
    (hfail : (oc_queue_event_c q e).2 = false) :
    oc_ringbuffer_read_available (oc_queue_event q e) = oc_ringbuffer_read_available q
    ∧ oc_ringbuffer_write_available (oc_queue_event q e) = oc_ringbuffer_write_available q
    ∧ oc_queue_event q e = q := by
  suffices h : oc_queue_event q e = q by
    rw [h]
    exact ⟨rfl, rfl, rfl⟩
  rw [oc_queue_event]
  rw [oc_queue_event_c] at hfail ⊢
  by_cases hg : oc_ringbuffer_write_available q < sizeof_oc_event
  · rw [if_pos hg]
  · rw [if_neg hg] at hfail ⊢
    by_cases ht : e.type = OC_EVENT_PATHDROP
    · rw [if_pos ht] at hfail ⊢
      rcases hrp : reservePaths (oc_ringbuffer_reserve q (encodeHeader e)) e.paths.strings
        with ⟨q2, b⟩
      rw [hrp] at hfail
      cases b with
      | false => exact Bool.noConfusion hfail
      | true =>
        dsimp only
        have hcc := reservePaths_committed_cap e.paths.strings
          (oc_ringbuffer_reserve q (encodeHeader e))
        rw [hrp] at hcc
        simp only [oc_ringbuffer_reserve] at hcc
        rw [oc_ringbuffer_rewind]
        obtain ⟨q2cap, q2c, q2st⟩ := q2
        obtain ⟨qcap, qc, qst⟩ := q
        simp only at hcc hst ⊢
        rw [hcc.1, hcc.2, hst]
    · rw [if_neg ht] at hfail
      simp at hfail

/-- Witness for C2: a queue of capacity 30 holds the 24-byte header but not a
path of length 10, so the push is rolled back and the queue is untouched. -/
theorem queue_push_failure_no_residue_witness :
    oc_ringbuffer_read_available (oc_queue_event (oc_ringbuffer_init 30)
        { type := OC_EVENT_PATHDROP, fields := 0
        , paths := { strings := [[0, 1, 2, 3, 4, 5, 6, 7, 8, 9]], eltCount := 1 } })
      = oc_ringbuffer_read_available (oc_ringbuffer_init 30)
    ∧ oc_ringbuffer_write_available (oc_queue_event (oc_ringbuffer_init 30)
        { type := OC_EVENT_PATHDROP, fields := 0
        , paths := { strings := [[0, 1, 2, 3, 4, 5, 6, 7, 8, 9]], eltCount := 1 } })
      = oc_ringbuffer_write_available (oc_ringbuffer_init 30)
    ∧ oc_queue_event (oc_ringbuffer_init 30)
        { type := OC_EVENT_PATHDROP, fields := 0
        , paths := { strings := [[0, 1, 2, 3, 4, 5, 6, 7, 8, 9]], eltCount := 1 } }
      = oc_ringbuffer_init 30 :=
  queue_push_failure_no_residue (oc_ringbuffer_init 30) _ rfl (by decide)

/-- Claim C6: when at least a header is readable and it decodes to a
path-drop event declaring `N` payload elements, `oc_next_event` always
returns an event (never the absence indicator and never an error return):
the payload list it carries has at most `N` elements, and if the
malformed-payload error was logged (byte shortfall) it has strictly fewer
than `N`. -/
theorem next_event_truncated_payload (q : oc_ringbuffer)
    (hread : sizeof_oc_event ≤ oc_ringbuffer_read_available q)
    (htype : (decodeHeader (q.committed.take sizeof_oc_event)).type = OC_EVENT_PATHDROP) :
    ((oc_next_event q).1).isSome = true
    ∧ (((oc_next_event q).1).getD
          { type := 0, fields := 0, paths := { strings := [], eltCount := 0 } }).paths.strings.length
        ≤ (decodeHeader (q.committed.take sizeof_oc_event)).paths.eltCount
    ∧ ((oc_next_event_c q).2.2 = true →
        (((oc_next_event q).1).getD
            { type := 0, fields := 0, paths := { strings := [], eltCount := 0 } }).paths.strings.length
          < (decodeHeader (q.committed.take sizeof_oc_event)).paths.eltCount) := by
  rw [oc_next_event]
  rw [oc_next_event_c, if_pos hread]
  simp only [oc_ringbuffer_read]
  rw [if_pos htype]
  refine ⟨rfl, ?_, ?_⟩
  · have := readPaths_length_le
      ((decodeHeader (q.committed.take sizeof_oc_event)).paths.eltCount) []
      { q with committed := q.committed.drop sizeof_oc_event }
    simpa using this
  · intro herr
    have := readPaths_err_length_lt
      ((decodeHeader (q.committed.take sizeof_oc_event)).paths.eltCount) []
      { q with committed := q.committed.drop sizeof_oc_event } herr
    simpa using this

/-- Witness for C6: a queue holding only a header that declares 3 paths and
no payload bytes still yields an event, with at most 3 (and, the shortfall
flag being set, strictly fewer than 3) paths. -/
theorem next_event_truncated_payload_witness :
    ((oc_next_event
        { cap := 64
        , committed := encodeHeader
            { type := OC_EVENT_PATHDROP, fields := 0
            , paths := { strings := [], eltCount := 3 } }
        , staged := [] }).1).isSome = true
    ∧ (((oc_next_event
        { cap := 64
        , committed := encodeHeader
            { type := OC_EVENT_PATHDROP, fields := 0
            , paths := { strings := [], eltCount := 3 } }
        , staged := [] }).1).getD
          { type := 0, fields := 0, paths := { strings := [], eltCount := 0 } }).paths.strings.length
        ≤ (decodeHeader ((encodeHeader
            { type := OC_EVENT_PATHDROP, fields := 0
            , paths := { strings := [], eltCount := 3 } } : List Nat).take
              sizeof_oc_event)).paths.eltCount
    ∧ ((oc_next_event_c
        { cap := 64
        , committed := encodeHeader
            { type := OC_EVENT_PATHDROP, fields := 0
            , paths := { strings := [], eltCount := 3 } }
        , staged := [] }).2.2 = true →
        (((oc_next_event
          { cap := 64
          , committed := encodeHeader
              { type := OC_EVENT_PATHDROP, fields := 0
              , paths := { strings := [], eltCount := 3 } }
          , staged := [] }).1).getD
            { type := 0, fields := 0, paths := { strings := [], eltCount := 0 } }).paths.strings.length
          < (decodeHeader ((encodeHeader
              { type := OC_EVENT_PATHDROP, fields := 0
              , paths := { strings := [], eltCount := 3 } } : List Nat).take
                sizeof_oc_event)).paths.eltCount) :=
  next_event_truncated_payload _ (by decide) (by decide)

/-- Claim C9: on a queue whose committed bytes all come from completed,
successful `oc_queue_event` calls on well-formed events, `oc_next_event`
never reaches a malformed-payload branch (the logging flag stays false), the
header read always returns exactly `sizeof(oc_event)` bytes when it happens,
and the property is preserved by the pop, so it holds for every subsequent
call as well. -/
theorem next_event_no_malformed_on_committed (es : List oc_event) (q : oc_ringbuffer)
    (hwf : ∀ e ∈ es, wfEvent e)
    (hc : q.committed = (es.map encodeEvent).flatten) :
    (oc_next_event_c q).2.2 = false
    ∧ (sizeof_oc_event ≤ oc_ringbuffer_read_available q →
        (q.committed.take sizeof_oc_event).length = sizeof_oc_event)
    ∧ ∃ es2 : List oc_event, (∀ e ∈ es2, wfEvent e)
        ∧ (oc_next_event_c q).2.1.committed = (es2.map encodeEvent).flatten := by
  refine ⟨?_, ?_, ?_⟩
  · cases es with
    | nil =>
      simp only [List.map_nil, List.flatten_nil] at hc
      rw [oc_next_event_c, if_neg]
      rw [oc_ringbuffer_read_available, hc]
      simp [sizeof_oc_event]
    | cons e tl =>
      rw [oc_next_event_c_encoded e ((tl.map encodeEvent).flatten) q
        (hwf e (List.mem_cons_self e tl)) (by rw [hc]; simp)]
  · intro hread
    rw [List.length_take]
    rw [oc_ringbuffer_read_available] at hread
    omega
  · cases es with
    | nil =>
      refine ⟨[], by simp, ?_⟩
      simp only [List.map_nil, List.flatten_nil] at hc ⊢
      rw [oc_next_event_c, if_neg]
      · exact hc
      · rw [oc_ringbuffer_read_available, hc]
        simp [sizeof_oc_event]
    | cons e tl =>
      refine ⟨tl, fun x hx => hwf x (List.mem_cons_of_mem e hx), ?_⟩
      rw [oc_next_event_c_encoded e ((tl.map encodeEvent).flatten) q
        (hwf e (List.mem_cons_self e tl)) (by rw [hc]; simp)]

/-- Witness for C9: a queue holding one committed path-drop event pops with
no malformed-payload log. -/
theorem next_event_no_malformed_on_committed_witness :
    (oc_next_event_c
      { cap := 64
      , committed := (List.map encodeEvent
          [{ type := OC_EVENT_PATHDROP, fields := 2
             , paths := { strings := [[9, 9, 9]], eltCount := 1 } }]).flatten
      , staged := [] }).2.2 = false :=
  (next_event_no_malformed_on_committed
    [{ type := OC_EVENT_PATHDROP, fields := 2
       , paths := { strings := [[9, 9, 9]], eltCount := 1 } }]
    _ (by decide) rfl).1

lemma oc_window_alloc_pool (p : oc_app) : (oc_window_alloc p).2.windowPool = p.windowPool := by
  unfold oc_window_alloc
  split <;> rfl

lemma applyOps_pool_length (ops : List PoolOp) :
    ∀ p : oc_app, (applyOps p ops).windowPool.length = p.windowPool.length := by
  induction ops with
  | nil => intro p; rfl
  | cons op ops ih =>
    intro p
    rw [applyOps, List.foldl_cons,
      show List.foldl applyOp (applyOp p op) ops = applyOps (applyOp p op) ops from rfl, ih]
    cases op with
    | alloc =>
      dsimp only [applyOp]
      rw [oc_window_alloc_pool]
    | recycle j =>
      dsimp only [applyOp, oc_window_recycle_ptr]
      simp

lemma applyOps_gen (ops : List PoolOp) :
    ∀ (p : oc_app) (i : Nat),
      i < p.windowPool.length → p.windowPool.getD i 0 < 2 ^ 32 →
      (applyOps p ops).windowPool.getD i 0
        = (p.windowPool.getD i 0 + recycleCount i ops) % 2 ^ 32 := by
  induction ops with
  | nil =>
    intro p i _ hg
    show p.windowPool.getD i 0 = (p.windowPool.getD i 0 + recycleCount i []) % 2 ^ 32
    rw [recycleCount, Nat.add_zero, Nat.mod_eq_of_lt hg]
  | cons op ops ih =>
    intro p i hi hg
    rw [applyOps, List.foldl_cons,
      show List.foldl applyOp (applyOp p op) ops = applyOps (applyOp p op) ops from rfl]
    cases op with
    | alloc =>
      have hpool : (applyOp p PoolOp.alloc).windowPool = p.windowPool := oc_window_alloc_pool p
      rw [ih _ i (by rw [hpool]; exact hi) (by rw [hpool]; exact hg), hpool]
      rw [show recycleCount i (PoolOp.alloc :: ops) = recycleCount i ops from by
        rw [recycleCount]; simp]
    | recycle j =>
      by_cases hj : j = i
      · subst hj
        have hset : (applyOp p (PoolOp.recycle j)).windowPool.getD j 0
            = (p.windowPool.getD j 0 + 1) % 2 ^ 32 := by
          dsimp only [applyOp, oc_window_recycle_ptr]
          simp [List.getD_eq_getElem?_getD, List.getElem?_set_self, hi]
        have hlen : (applyOp p (PoolOp.recycle j)).windowPool.length = p.windowPool.length := by
          dsimp only [applyOp, oc_window_recycle_ptr]
          simp
        rw [ih _ j (by rw [hlen]; exact hi)
          (by rw [hset]; exact Nat.mod_lt _ (by norm_num)), hset]
        rw [show recycleCount j (PoolOp.recycle j :: ops) = 1 + recycleCount j ops from by
          rw [recycleCount]; simp]
        rw [Nat.mod_add_mod]
        congr 1
        omega
      · have hget : (applyOp p (PoolOp.recycle j)).windowPool.getD i 0
            = p.windowPool.getD i 0 := by
          dsimp only [applyOp, oc_window_recycle_ptr]
          simp [List.getD_eq_getElem?_getD, List.getElem?_set_ne hj]
        have hlen : (applyOp p (PoolOp.recycle j)).windowPool.length = p.windowPool.length := by
          dsimp only [applyOp, oc_window_recycle_ptr]
          simp
        rw [ih _ i (by rw [hlen]; exact hi) (by rw [hget]; exact hg), hget]
        rw [show recycleCount i (PoolOp.recycle j :: ops) = recycleCount i ops from by
          rw [recycleCount]; simp [hj]]

lemma recycleCount_cycleOps (k : Nat) : recycleCount 0 (cycleOps k) = k := by
  induction k with
  | zero => rfl
  | succ k ih =>
    rw [cycleOps, recycleCount, recycleCount, ih]
    rw [if_neg (by decide), if_pos rfl]
    omega

lemma allocAll_spec (k : Nat) :
    ∀ p : oc_app, k ≤ p.windowFreeList.length →
      allocAll p k = ((p.windowFreeList.take k).map some,
        { p with windowFreeList := p.windowFreeList.drop k }) := by
  induction k with
  | zero =>
    intro p _
    simp [allocAll]
  | succ k ih =>
    intro p hk
    cases hfl : p.windowFreeList with
    | nil => rw [hfl] at hk; simp at hk
    | cons i rest =>
      rw [allocAll]
      unfold oc_window_alloc
      rw [hfl]
      dsimp only
      rw [ih { p with windowFreeList := rest } (by
        rw [hfl] at hk
        simpa using Nat.le_of_succ_le_succ hk)]
      simp

/-- Claim C3: `oc_window_ptr_from_handle` returns the slot whose index is
encoded in the high 32 bits of the handle exactly when that index is in range
and the generation of the slot equals the generation in the low 32 bits; in
every other case it returns null (it is total, so it never crashes). -/
theorem ptr_from_handle_valid_iff (p : oc_app) (h : Nat) (hh : h < 2 ^ 64) :
    (oc_window_ptr_from_handle p h = some (h / 2 ^ 32)
      ↔ h / 2 ^ 32 < p.windowPool.length
        ∧ p.windowPool.getD (h / 2 ^ 32) 0 = h % 2 ^ 32)
    ∧ (¬ (h / 2 ^ 32 < p.windowPool.length
        ∧ p.windowPool.getD (h / 2 ^ 32) 0 = h % 2 ^ 32)
      → oc_window_ptr_from_handle p h = none) := by
  constructor
  · constructor
    · intro hsome
      simp only [oc_window_ptr_from_handle] at hsome
      by_cases h1 : p.windowPool.length ≤ h / 2 ^ 32
      · rw [if_pos h1] at hsome
        exact absurd hsome (by simp)
      · by_cases h2 : p.windowPool.getD (h / 2 ^ 32) 0 ≠ h % 2 ^ 32
        · rw [if_neg h1, if_pos h2] at hsome
          exact absurd hsome (by simp)
        · push_neg at h2
          exact ⟨Nat.lt_of_not_le h1, h2⟩
    · rintro ⟨ha, hb⟩
      simp only [oc_window_ptr_from_handle]
      rw [if_neg (Nat.not_le_of_lt ha), if_neg (fun hne => hne hb)]
  · intro hn
    simp only [oc_window_ptr_from_handle]
    by_cases h1 : p.windowPool.length ≤ h / 2 ^ 32
    · rw [if_pos h1]
    · rw [if_neg h1, if_pos ?_]
      intro heq
      exact hn ⟨Nat.lt_of_not_le h1, heq⟩

/-- Witness for C3: the handle with index 5 and generation 1 over a pool of
size 2 has an out-of-range index, so the lookup returns null. -/
theorem ptr_from_handle_valid_iff_witness :
    oc_window_ptr_from_handle (oc_init_window_handles 2) (5 * 2 ^ 32 + 1) = none :=
  (ptr_from_handle_valid_iff (oc_init_window_handles 2) (5 * 2 ^ 32 + 1)
    (by norm_num)).2 (by decide)

/-- Claim C10: as long as no slot generation is 0 (true from `init`, which
sets every generation to 1, until a generation wraps), the null handle (value
0, decoding to index 0 and generation 0) never resolves to a live slot. -/
theorem null_handle_never_resolves (p : oc_app)
    (hz : ∀ g ∈ p.windowPool, g ≠ 0) :
    oc_window_ptr_from_handle p oc_window_null_handle = none := by
  cases hp : p.windowPool with
  | nil => simp [oc_window_ptr_from_handle, oc_window_null_handle, hp]
  | cons g gs =>
    have hg : g ≠ 0 := hz g (by rw [hp]; exact List.mem_cons_self g gs)
    simp [oc_window_ptr_from_handle, oc_window_null_handle, hp, hg]

/-- Witness for C10: on a freshly set up pool of 2 slots the null handle
resolves to null. -/
theorem null_handle_never_resolves_witness :
    oc_window_ptr_from_handle (oc_init_window_handles 2) oc_window_null_handle = none :=
  null_handle_never_resolves (oc_init_window_handles 2) (by decide)

/-- Claim C4, amended: a handle taken for a live slot fails
`oc_window_ptr_from_handle` after the slot is recycled, in every later state
in which the total number of recycles of that slot since the handle was taken
(the first recycle plus any in the later operations) is not a multiple of
`2 ^ 32`; in particular for up to `2 ^ 32 - 1` further recycles and any number
of allocations.  (As stated, for arbitrarily many cycles, the claim fails: at
exactly `2 ^ 32` recycles the u32 generation wraps to its old value and the
stale handle validates again — see the counterexample.) -/
theorem stale_handle_detected (p : oc_app) (i : Nat) (ops : List PoolOp)
    (hi : i < p.windowPool.length) (hi32 : i < 2 ^ 32)
    (hg : p.windowPool.getD i 0 < 2 ^ 32)
    (hwrap : ¬ 2 ^ 32 ∣ (1 + recycleCount i ops)) :
    oc_window_ptr_from_handle (applyOps (oc_window_recycle_ptr p i) ops)
      (oc_window_handle_from_ptr p i) = none := by
  have hhandle : oc_window_handle_from_ptr p i = i * 2 ^ 32 + p.windowPool.getD i 0 := by
    rw [oc_window_handle_from_ptr]
    apply Nat.mod_eq_of_lt
    have : i * 2 ^ 32 + p.windowPool.getD i 0 < (i + 1) * 2 ^ 32 := by
      rw [Nat.add_mul, Nat.one_mul]
      omega
    calc i * 2 ^ 32 + p.windowPool.getD i 0
        < (i + 1) * 2 ^ 32 := this
      _ ≤ 2 ^ 32 * 2 ^ 32 := Nat.mul_le_mul_right _ (by omega)
      _ = 2 ^ 64 := by norm_num
  have hdiv : (i * 2 ^ 32 + p.windowPool.getD i 0) / 2 ^ 32 = i := by omega
  have hmod : (i * 2 ^ 32 + p.windowPool.getD i 0) % 2 ^ 32 = p.windowPool.getD i 0 := by
    omega
  have hlen1 : (oc_window_recycle_ptr p i).windowPool.length = p.windowPool.length := by
    rw [oc_window_recycle_ptr]
    simp
  have hgen1 : (oc_window_recycle_ptr p i).windowPool.getD i 0
      = (p.windowPool.getD i 0 + 1) % 2 ^ 32 := by
    rw [oc_window_recycle_ptr]
    simp [List.getD_eq_getElem?_getD, List.getElem?_set_self, hi]
  have hlen2 := applyOps_pool_length ops (oc_window_recycle_ptr p i)
  have hgen2 := applyOps_gen ops (oc_window_recycle_ptr p i) i
    (by rw [hlen1]; exact hi) (by rw [hgen1]; exact Nat.mod_lt _ (by norm_num))
  rw [hgen1, Nat.mod_add_mod] at hgen2
  simp only [oc_window_ptr_from_handle, hhandle, hdiv, hmod]
  rw [if_neg (by rw [hlen2, hlen1]; omega), if_pos ?_]
  rw [hgen2]
  intro heq
  apply hwrap
  have : (p.windowPool.getD i 0 + 1 + recycleCount i ops) % 2 ^ 32
      = p.windowPool.getD i 0 := heq
  omega

/-- Witness for the amended C4: over a fresh pool of 2 slots, the handle for
slot 0 stops resolving after one recycle with no further operations. -/
theorem stale_handle_detected_witness :
    oc_window_ptr_from_handle (applyOps (oc_window_recycle_ptr (oc_init_window_handles 2) 0) [])
      (oc_window_handle_from_ptr (oc_init_window_handles 2) 0) = none :=
  stale_handle_detected (oc_init_window_handles 2) 0 [] (by decide) (by decide)
    (by decide) (by decide)

/-- Counterexample to C4 as stated: the claim quantifies over arbitrarily
many further alloc/recycle cycles, but after one recycle and `2 ^ 32 - 1`
further alloc-then-recycle cycles of a one-slot pool, the u32 generation has
wrapped back to its value at handle creation, and the stale pre-recycle
handle resolves to the slot again instead of returning null. -/
theorem stale_handle_wraps_around :
    oc_window_ptr_from_handle
      (applyOps (oc_window_recycle_ptr (oc_window_alloc (oc_init_window_handles 1)).2 0)
        (cycleOps (2 ^ 32 - 1)))
      (oc_window_handle_from_ptr (oc_window_alloc (oc_init_window_handles 1)).2 0)
    = some 0 := by
  have hp2 : oc_window_recycle_ptr (oc_window_alloc (oc_init_window_handles 1)).2 0
      = { windowPool := [2], windowFreeList := [0] } := by decide
  have hh : oc_window_handle_from_ptr (oc_window_alloc (oc_init_window_handles 1)).2 0 = 1 := by
    decide
  rw [hp2, hh]
  have hlen := applyOps_pool_length (cycleOps (2 ^ 32 - 1))
    { windowPool := [2], windowFreeList := [0] }
  have hgen := applyOps_gen (cycleOps (2 ^ 32 - 1))
    { windowPool := [2], windowFreeList := [0] } 0 (by decide) (by decide)
  rw [recycleCount_cycleOps] at hgen
  have hgen2 : (applyOps { windowPool := [2], windowFreeList := [0] }
      (cycleOps (2 ^ 32 - 1))).windowPool.getD 0 0 = 1 := by
    rw [hgen]
    norm_num
  simp only [oc_window_ptr_from_handle]
  rw [show (1 : Nat) / 2 ^ 32 = 0 from by norm_num,
    show (1 : Nat) % 2 ^ 32 = 1 from by norm_num]
  rw [if_neg (by rw [hlen]; decide), if_neg (by rw [hgen2]; omega)]

/-- Claim C5, amended: `oc_window_recycle_ptr` increments the u32 generation
with plain wrapping arithmetic and no special case: the new generation is 0
exactly when the old one was `2 ^ 32 - 1` (so, starting from 1, a slot keeps
a nonzero generation only while it has been recycled fewer than `2 ^ 32 - 1`
times; nothing skips over 0 on wraparound). -/
theorem recycle_generation_wrap (p : oc_app) (i : Nat)
    (hi : i < p.windowPool.length) (hg : p.windowPool.getD i 0 < 2 ^ 32) :
    ((oc_window_recycle_ptr p i).windowPool.getD i 0 = 0
      ↔ p.windowPool.getD i 0 = 2 ^ 32 - 1) := by
  have hgen : (oc_window_recycle_ptr p i).windowPool.getD i 0
      = (p.windowPool.getD i 0 + 1) % 2 ^ 32 := by
    rw [oc_window_recycle_ptr]
    simp [List.getD_eq_getElem?_getD, List.getElem?_set_self, hi]
  rw [hgen]
  omega

/-- Witness for the amended C5: recycling a fresh slot (generation 1) yields
a nonzero generation. -/
theorem recycle_generation_wrap_witness :
    ¬ ((oc_window_recycle_ptr (oc_init_window_handles 1) 0).windowPool.getD 0 0 = 0) :=
  fun h0 => by
    have := (recycle_generation_wrap (oc_init_window_handles 1) 0
      (by decide) (by decide)).1 h0
    revert this
    decide

/-- Counterexample to C5 as stated: from a fresh one-slot pool (generation
1), after `2 ^ 32 - 2` alloc-then-recycle cycles the slot is at the maximum
u32 generation `2 ^ 32 - 1`; allocating it once more and recycling it then
wraps the generation to 0 — the code does not skip over 0. -/
theorem generation_wraps_to_zero :
    ((oc_window_alloc (applyOps (oc_init_window_handles 1)
        (cycleOps (2 ^ 32 - 2)))).2.windowPool.getD 0 0 = 2 ^ 32 - 1)
    ∧ ((oc_window_recycle_ptr (oc_window_alloc (applyOps (oc_init_window_handles 1)
        (cycleOps (2 ^ 32 - 2)))).2 0).windowPool.getD 0 0 = 0) := by
  have hgen := applyOps_gen (cycleOps (2 ^ 32 - 2)) (oc_init_window_handles 1) 0
    (by decide) (by decide)
  rw [recycleCount_cycleOps] at hgen
  have hinit1 : (oc_init_window_handles 1).windowPool.getD 0 0 = 1 := by decide
  have hmax : (applyOps (oc_init_window_handles 1)
      (cycleOps (2 ^ 32 - 2))).windowPool.getD 0 0 = 2 ^ 32 - 1 := by
    rw [hgen, hinit1]
    norm_num
  have hlen := applyOps_pool_length (cycleOps (2 ^ 32 - 2)) (oc_init_window_handles 1)
  have hpool := oc_window_alloc_pool (applyOps (oc_init_window_handles 1) (cycleOps (2 ^ 32 - 2)))
  have hmax2 : (oc_window_alloc (applyOps (oc_init_window_handles 1)
      (cycleOps (2 ^ 32 - 2)))).2.windowPool.getD 0 0 = 2 ^ 32 - 1 := by
    rw [hpool]
    exact hmax
  constructor
  · exact hmax2
  · rw [oc_window_recycle_ptr]
    have hlt : (0 : Nat) < (oc_window_alloc (applyOps (oc_init_window_handles 1)
        (cycleOps (2 ^ 32 - 2)))).2.windowPool.length := by
      rw [hpool, hlen]
      decide
    rw [hmax2]
    rw [show ((2 : Nat) ^ 32 - 1 + 1) % 2 ^ 32 = 0 from by norm_num]
    obtain ⟨a, as, hcons⟩ : ∃ a as, (oc_window_alloc (applyOps (oc_init_window_handles 1)
        (cycleOps (2 ^ 32 - 2)))).2.windowPool = a :: as := by
      cases hq : (oc_window_alloc (applyOps (oc_init_window_handles 1)
          (cycleOps (2 ^ 32 - 2)))).2.windowPool with
      | nil =>
        rw [hq] at hlt
        simp at hlt
      | cons a as => exact ⟨a, as, rfl⟩
    rw [hcons]
    rfl

/-- Claim C7: on a pool of `n` slots, the first `n` allocations succeed (they
hand out the slots in index order), the `(n+1)`-th reports exhaustion; after
one recycle of any slot `i`, exactly one further allocation succeeds (it
returns `i`, and the one after fails again), and the succeeding allocation
returns the slot with a generation different from the one encoded in the
handle taken for that slot before the recycle. -/
theorem pool_exhaustion (n : Nat) :
    (allocAll (oc_init_window_handles n) n).1 = (List.range n).map some
    ∧ (oc_window_alloc (allocAll (oc_init_window_handles n) n).2).1 = none
    ∧ ∀ i, i < n →
        (oc_window_alloc (oc_window_recycle_ptr
            (allocAll (oc_init_window_handles n) n).2 i)).1 = some i
        ∧ (oc_window_alloc (oc_window_alloc (oc_window_recycle_ptr
            (allocAll (oc_init_window_handles n) n).2 i)).2).1 = none
        ∧ (oc_window_alloc (oc_window_recycle_ptr
            (allocAll (oc_init_window_handles n) n).2 i)).2.windowPool.getD i 0
          ≠ (oc_window_handle_from_ptr (allocAll (oc_init_window_handles n) n).2 i) % 2 ^ 32 := by
  have hfl : (oc_init_window_handles n).windowFreeList = List.range n := rfl
  have hwp : (oc_init_window_handles n).windowPool = List.replicate n 1 := rfl
  have hspec := allocAll_spec n (oc_init_window_handles n) (by rw [hfl]; simp)
  rw [hfl] at hspec
  rw [List.take_of_length_le (by simp), List.drop_eq_nil_of_le (by simp)] at hspec
  have hfirst : (allocAll (oc_init_window_handles n) n).1 = (List.range n).map some := by
    rw [hspec]
  have hfinal : (allocAll (oc_init_window_handles n) n).2
      = { windowPool := List.replicate n 1, windowFreeList := [] } := by
    rw [hspec, ← hwp]
  refine ⟨hfirst, ?_, ?_⟩
  · rw [hfinal]
    rfl
  · intro i hi
    have hget1 : (List.replicate n 1).getD i 0 = 1 := by
      rw [List.getD_eq_getElem?_getD, List.getElem?_replicate, if_pos hi]
      rfl
    have hrec : oc_window_recycle_ptr
        { windowPool := List.replicate n 1, windowFreeList := [] } i
        = { windowPool := (List.replicate n 1).set i 2, windowFreeList := [i] } := by
      rw [oc_window_recycle_ptr]
      simp only [hget1]
      norm_num
    have hget2 : ((List.replicate n 1).set i 2).getD i 0 = 2 := by
      have hilen : i < (List.replicate n 1).length := by simp [hi]
      simp [List.getD_eq_getElem?_getD, List.getElem?_set_self, hilen, hi]
    refine ⟨?_, ?_, ?_⟩
    · rw [hfinal, hrec]
      rfl
    · rw [hfinal, hrec]
      rfl
    · rw [hfinal, hrec]
      simp only [oc_window_alloc]
      rw [hget2, oc_window_handle_from_ptr]
      simp only
      rw [hget1]
      rw [Nat.mod_mod_of_dvd _ (by norm_num : (2 : Nat) ^ 32 ∣ 2 ^ 64)]
      omega

/-- Witness for C7: on a pool of one slot, one allocation succeeds, the
second reports exhaustion. -/
theorem pool_exhaustion_witness :
    (oc_window_alloc (oc_window_recycle_ptr
        (allocAll (oc_init_window_handles 1) 1).2 0)).1 = some 0 :=
  ((pool_exhaustion 1).2.2 0 (by decide)).1

/-- Claim C8: on a surface holding a cached swapchain, a request with the
same owning device and the same requested size as the cached ones returns the
cached swapchain and leaves the surface unchanged; anything observable
changes only when the device or the requested size differs from the cache;
and on such a rebuild the cached size is set to the request and a new
swapchain exists exactly when the device and both size components are
nonzero. -/
theorem swapchain_cache (s : oc_wgpu_surface) (sc : WGPUSwapChain)
    (hcache : s.wgpuSwapChain = some sc) (device : Nat) (size : Int × Int) :
    (device = s.wgpuDevice ∧ size = s.swapChainSize →
      oc_wgpu_surface_get_swapchain s device size = (some sc, s))
    ∧ (oc_wgpu_surface_get_swapchain s device size ≠ (s.wgpuSwapChain, s) →
      device ≠ s.wgpuDevice ∨ size ≠ s.swapChainSize)
    ∧ (device ≠ s.wgpuDevice ∨ size ≠ s.swapChainSize →
      (oc_wgpu_surface_get_swapchain s device size).2.swapChainSize = size
      ∧ (oc_wgpu_surface_get_swapchain s device size).2.wgpuSwapChain
          = (if device ≠ 0 ∧ size.1 ≠ 0 ∧ size.2 ≠ 0 then
               some { device := device, width := size.1, height := size.2 }
             else none)) := by
  refine ⟨?_, ?_, ?_⟩
  · rintro ⟨hdev, hsz⟩
    subst hdev
    subst hsz
    rw [oc_wgpu_surface_get_swapchain, if_neg (by simp [hcache]), hcache]
  · intro hne
    by_contra hcon
    push_neg at hcon
    obtain ⟨hdev, hsz⟩ := hcon
    apply hne
    subst hdev
    subst hsz
    rw [oc_wgpu_surface_get_swapchain, if_neg (by simp [hcache])]
  · intro hor
    have hcond : s.wgpuDevice ≠ device ∨ s.wgpuSwapChain = none ∨
        s.swapChainSize.1 ≠ size.1 ∨ s.swapChainSize.2 ≠ size.2 := by
      rcases hor with h | h
      · exact Or.inl (Ne.symm h)
      · right
        right
        by_contra hc
        push_neg at hc
        exact h (Prod.ext_iff.2 ⟨hc.1.symm, hc.2.symm⟩)
    rw [oc_wgpu_surface_get_swapchain, if_pos hcond]
    dsimp only
    by_cases hrel : s.wgpuDevice ≠ 0 ∧ s.wgpuDevice ≠ device
    · rw [if_pos hrel]
      by_cases hcr : device ≠ 0 ∧ size.1 ≠ 0 ∧ size.2 ≠ 0
      · rw [if_pos hcr, if_pos hcr]
        exact ⟨rfl, rfl⟩
      · rw [if_neg hcr, if_neg hcr]
        exact ⟨rfl, rfl⟩
    · rw [if_neg hrel]
      by_cases hcr : device ≠ 0 ∧ size.1 ≠ 0 ∧ size.2 ≠ 0
      · rw [if_pos hcr, if_pos hcr]
        exact ⟨rfl, rfl⟩
      · rw [if_neg hcr, if_neg hcr]
        exact ⟨rfl, rfl⟩

/-- Witness for C8: a surface caching a swapchain for device 1 at size 4 by 3
returns the cached swapchain, unchanged, for the same request. -/
theorem swapchain_cache_witness :
    oc_wgpu_surface_get_swapchain
      { wgpuDevice := 1
      , wgpuSwapChain := some { device := 1, width := 4, height := 3 }
      , swapChainSize := (4, 3) } 1 (4, 3)
    = (some { device := 1, width := 4, height := 3 },
       { wgpuDevice := 1
       , wgpuSwapChain := some { device := 1, width := 4, height := 3 }
       , swapChainSize := (4, 3) }) :=
  (swapchain_cache
    { wgpuDevice := 1
    , wgpuSwapChain := some { device := 1, width := 4, height := 3 }
    , swapChainSize := (4, 3) }
    { device := 1, width := 4, height := 3 } rfl 1 (4, 3)).1 ⟨rfl, rfl⟩

end Orca
